import Mathlib

/-!
Shallow embedding of `src/parse.c` from the A-A-Task-Manager repository:
the command parser of an interactive task-management shell.  C strings are
modelled as `List Char` (the characters before the terminating NUL, so the
lists are NUL-free by convention); nullable pointers as `Option`; the
argument vector `char *argv[]` as a list of `Option (List Char)` whose
length is the declared array size `MAXARGS`.  Machine integers: `long` is
64-bit, `int` is 32-bit; `strtol` clamps to the `long` range and the
`(int)` cast wraps modulo `2 ^ 32`.
-/

namespace ParseC

/-- C strings, as the character list before the terminating NUL. -/
abbrev CStr := List Char

/-- The argument vector: each slot is a nullable owned string. -/
abbrev Argv := List (Option CStr)

/-- Modelled from the spec: `MAXARGS` is defined in `taskman.h`, which is not
part of the available sources.  The spec only uses it symbolically as the
capacity of the token buffer; a representative concrete value is used. -/
def MAXARGS : Nat := 80

/-- Modelled from the spec: `MAXLINE` is defined in `taskman.h`, which is not
part of the available sources.  The spec only uses it symbolically as the
maximum line length; a representative concrete value is used. -/
def MAXLINE : Nat := 1024

/-- C `isspace` in the default locale. -/
def isspaceC (c : Char) : Bool :=
  c = ' ' || c = '\t' || c = '\n' || c = '\x0b' || c = '\x0c' || c = '\r'

/-- C `isdigit`. -/
def isDigitC (c : Char) : Bool := '0' ≤ c && c ≤ '9'

/-- Modelled from the spec: `string_copy` is declared in `util.h`, which is
not part of the available sources; per the spec each token is
"independently owned-copied".  At the value level a copy of a string is the
string itself. -/
def string_copy (s : CStr) : CStr := s

/-- Modelled from the spec: `free_argv_str` is declared in `util.h`, which is
not part of the available sources; per the spec, release "frees every owned
token and resets each slot to empty". -/
def free_argv_str (a : Argv) : Argv := a.map fun _ => none

/-- The `Instruction` struct of `parse.h`: instruction name, numeric task id
(`int`, default 0 = absent), optional file name. -/
structure Instruction where
  instruct : Option CStr
  id : Int
  file : Option CStr
deriving DecidableEq, Repr

/-- `instructs_list_full` from `parse.c`: the full recognized instruction
list (the terminating NULL of the C array is the end of the list). -/
def instructs_list_full : List CStr :=
  ["help", "quit", "tasks", "delete", "run", "bg", "cancel", "log",
   "output", "suspend", "resume"].map String.toList

/-- `instructs_with_id` from `parse.c`: instructions that may use an ID
argument. -/
def instructs_with_id : List CStr :=
  ["delete", "run", "bg", "cancel", "log", "output", "suspend",
   "resume"].map String.toList

/-- `instructs_with_file` from `parse.c`: instructions that may use a file
name argument. -/
def instructs_with_file : List CStr :=
  ["run", "bg", "log"].map String.toList

/-- `contains` from `parse.c`.  A null needle yields false; otherwise the
needle is compared against each haystack entry with
`strncmp(needle, haystack[i], strlen(haystack[i]) + 1)`, which (comparing
through the terminating NUL) is exact string equality. -/
def contains (needle : Option CStr) (haystack : List CStr) : Bool :=
  match needle with
  | none => false
  | some s => haystack.any fun h => s = h

/-- Accumulator-based scan behind `splitTokens`: `acc` holds the reversed
characters of the token currently being read. -/
def splitAux : CStr → CStr → List CStr
  | [], acc => if acc.isEmpty then [] else [acc.reverse]
  | c :: cs, acc =>
    if c = ' ' then
      if acc.isEmpty then splitAux cs [] else acc.reverse :: splitAux cs []
    else splitAux cs (c :: acc)

/-- The `strtok(buffer, " ")` loop of `parse_n`: split on the single space
character into the maximal runs of non-space characters, in order.  Leading,
trailing and repeated spaces produce no tokens. -/
def splitTokens (s : CStr) : List CStr := splitAux s []

/-- The sign scan of `strtol`: consume one optional leading `+` or `-`. -/
def afterSign (r : CStr) : CStr :=
  match r with
  | c :: cs => if c = '+' || c = '-' then cs else c :: cs
  | [] => []

/-- `LONG_MAX` on a 64-bit platform. -/
def LONG_MAX : Int := 2 ^ 63 - 1

/-- `LONG_MIN` on a 64-bit platform. -/
def LONG_MIN : Int := -(2 ^ 63)

/-- The out-of-range behaviour of `strtol`: results are clamped to the
`long` range. -/
def clampLong (v : Int) : Int := max LONG_MIN (min LONG_MAX v)

/-- Value of a run of decimal digits. -/
def digitsVal (l : CStr) : Nat :=
  l.foldl (fun a c => a * 10 + (c.toNat - 48)) 0

/-- C `strtol(t, &end, 10)` on the NUL-free token `t`: skip leading
whitespace, one optional sign, then a maximal run of decimal digits.
Returns the (clamped) value together with the index `end - t` of the final
`end` pointer; if no digits were consumed no conversion is performed, the
value is 0 and `end` is reset to the start of the string. -/
def strtol10 (t : CStr) : Int × Nat :=
  let ws := t.takeWhile isspaceC
  let r := t.dropWhile isspaceC
  let rest := afterSign r
  let sgn : Int :=
    match r with
    | c :: _ => if c = '-' then -1 else 1
    | [] => 1
  let ds := rest.takeWhile isDigitC
  if ds.isEmpty then (0, 0)
  else (clampLong (sgn * (digitsVal ds : Int)),
        ws.length + (r.length - rest.length) + ds.length)

/-- The `(int)` narrowing conversion of a `long` value: wrap modulo `2 ^ 32`
into `[-2 ^ 31, 2 ^ 31)`. -/
def toInt32 (v : Int) : Int :=
  let m := v % (2 ^ 32)
  if m < 2 ^ 31 then m else m - 2 ^ 32

/-- `parse_id_token` from `parse.c`.  The third component models the `int`
currently stored behind the `id` out-pointer; the result is the new stored
value together with the C return flag.  On a null token or instruction, or
an instruction outside `instructs_with_id`, the stored value is untouched;
on a failed conversion (`end == p_tok` or `*end != 0`) it is reset to 0. -/
def parse_id_token (p_tok : Option CStr) (instruct : Option CStr) (id : Int) :
    Int × Bool :=
  match p_tok, instruct with
  | some t, some ins =>
    if contains (some ins) instructs_with_id then
      if (strtol10 t).2 = 0 ∨ (strtol10 t).2 < t.length then (0, false)
      else (toInt32 (strtol10 t).1, true)
    else (id, false)
  | _, _ => (id, false)

/-- `parse_file_token` from `parse.c`.  The third component models the
string pointer currently stored behind the `file` out-pointer. -/
def parse_file_token (p_tok : Option CStr) (instruct : Option CStr)
    (file : Option CStr) : Option CStr × Bool :=
  match p_tok, instruct with
  | some t, some ins =>
    if contains (some ins) instructs_with_file then (some (string_copy t), true)
    else (file, false)
  | _, _ => (file, false)

/-- `initialize_argv_n` from `parse.c`: on a non-null vector, write `NULL`
into slots `0 .. n-1`; returns the updated vector together with the C
success flag. -/
def initialize_argv_n (argv : Option Argv) (n : Nat) : Option Argv × Bool :=
  match argv with
  | none => (none, false)
  | some a => (some (List.replicate (min n a.length) none ++ a.drop n), true)

/-- `initialize_argv` from `parse.c`. -/
def initialize_argv (argv : Option Argv) : Option Argv × Bool :=
  initialize_argv_n argv MAXARGS

/-- The token-storing loop of `parse_n`: `argv[index] = string_copy(p_tok)`
for the tokens in order, leaving later slots as they were. -/
def storeTokens (toks : List CStr) (a : Argv) : Argv :=
  (toks.map fun t => some (string_copy t)) ++ a.drop toks.length

/-- Read `argv[i]` (slots outside the list read as null; in the C code the
array always has `MAXARGS` slots). -/
def argvGet (a : Argv) (i : Nat) : Option CStr := a.getD i none

/-- `parse_n` from `parse.c`.  Null checks, field reset, tokenization of the
`strncpy`-truncated scratch copy of the line (faithful for lines shorter
than `MAXLINE`; see the scratch-buffer analysis below for longer lines),
token storage capped at `n`, instruction-name capture, id and file
extraction, and the conditional release of `argv` for recognized
instructions. -/
def parse_n (cmd_line : Option CStr) (inst : Option Instruction)
    (argv : Option Argv) (n : Nat) : Option Instruction × Option Argv :=
  match cmd_line, inst, argv with
  | some c, some _, some a =>
    let toks := splitTokens (c.take MAXLINE)
    match toks with
    | [] => (some { instruct := none, id := 0, file := none }, some a)
    | t :: tr =>
      let a1 := storeTokens ((t :: tr).take n) a
      let nm : Option CStr := (argvGet a1 0).map string_copy
      let idr := parse_id_token (argvGet a1 1) nm 0
      let fr := parse_file_token (argvGet a1 2) nm none
      let i2 : Instruction := { instruct := nm, id := idr.1, file := fr.1 }
      if contains nm instructs_list_full then (some i2, some (free_argv_str a1))
      else (some i2, some a1)
  | _, _, _ => (inst, argv)

/-- `parse` from `parse.c`: unconditionally reinitialize the argument
vector, then run `parse_n` with capacity `MAXARGS - 1`. -/
def parse (cmd_line : Option CStr) (inst : Option Instruction)
    (argv : Option Argv) : Option Instruction × Option Argv :=
  let a1 := (initialize_argv_n argv MAXARGS).1
  parse_n cmd_line inst a1 (MAXARGS - 1)

/-- `is_whitespace` from `parse.c`: skip `isspace` characters and test for
the terminating NUL; a null string counts as whitespace. -/
def is_whitespace (s : Option CStr) : Bool :=
  match s with
  | none => true
  | some l => (l.dropWhile isspaceC).isEmpty

/-- `initialize_instruction` from `parse.c`. -/
def initialize_instruction (inst : Option Instruction) :
    Option Instruction × Bool :=
  match inst with
  | none => (none, false)
  | some _ => (some { instruct := none, id := 0, file := none }, true)

/-- `free_instruction` from `parse.c`: on a non-null instruction, free and
null `instruct` and `file` (the `id` field is not touched). -/
def free_instruction (inst : Option Instruction) : Option Instruction :=
  match inst with
  | none => none
  | some i => some { i with instruct := none, file := none }

/-- `strncpy(buffer, cmd_line, n)` into the zero-initialized scratch array
`char buffer[n]` of `parse_n`: copy at most `n` characters of the NUL-free
line, zero-padding only when the source is exhausted first. -/
def strncpyC (src : CStr) (n : Nat) : CStr :=
  src.take n ++ List.replicate (n - src.length) '\x00'

/-- A scratch region is a usable C string only if it contains a NUL
terminator. -/
def hasTerm (b : CStr) : Prop := '\x00' ∈ b

instance (b : CStr) : Decidable (hasTerm b) := by
  unfold hasTerm; infer_instance

/-- Live (non-null) tokens of an argument vector, in slot order. -/
def liveTokens (a : Argv) : List CStr := a.filterMap id

/-- No live token appears after a null sentinel slot. -/
def sentinelOK : Argv → Bool
  | [] => true
  | none :: rest => rest.all fun x => x = none
  | some _ :: rest => sentinelOK rest

/-- The null-termination invariant of the token buffer: no live token after
a sentinel, at most `MAXARGS - 1` live tokens, and the slot following the
last live token is the sentinel. -/
def argvInv (b : Argv) : Prop :=
  sentinelOK b = true ∧ (liveTokens b).length ≤ MAXARGS - 1 ∧
    argvGet b (liveTokens b).length = none

/-- The numeric-token syntax of the spec's claim: optional leading sign,
then one or more decimal digits, nothing else. -/
def claimIntSyntax (t : CStr) : Bool :=
  let d := afterSign t
  !d.isEmpty && d.all isDigitC

/-- The numeric-token syntax actually accepted by `parse_id_token`:
optional leading whitespace (skipped by `strtol`), then an optional sign,
then one or more decimal digits reaching the end of the token. -/
def intTokenOK (t : CStr) : Bool :=
  let d := afterSign (t.dropWhile isspaceC)
  !d.isEmpty && d.all isDigitC

/-! Helper lemmas. -/

lemma initialize_argv_n_full (a : Argv) (ha : a.length = MAXARGS) :
    (initialize_argv_n (some a) MAXARGS).1 = some (List.replicate MAXARGS none) := by
  have hd : a.drop MAXARGS = [] := List.drop_eq_nil_of_le (by omega)
  simp [initialize_argv_n, ha, hd]

lemma getD_replicate_none (m i : Nat) :
    (List.replicate m (none : Option CStr)).getD i none = none := by
  induction m generalizing i with
  | zero => simp
  | succ k ih => cases i <;> simp [List.replicate, ih]

lemma argvGet_somes (ts : List CStr) (m i : Nat) :
    argvGet (ts.map some ++ List.replicate m none) i = ts.get? i := by
  induction ts generalizing i with
  | nil =>
    have h1 : (List.replicate m (none : Option CStr)).getD i none = none :=
      getD_replicate_none m i
    simp [argvGet, h1]
  | cons t ts ih =>
    cases i with
    | zero => rfl
    | succ j =>
      simp only [argvGet, List.map_cons, List.cons_append, List.getD_cons_succ,
        List.get?_cons_succ]
      exact ih j

lemma storeTokens_replicate (ts : List CStr) (M : Nat) :
    storeTokens ts (List.replicate M (none : Option CStr)) =
      ts.map some ++ List.replicate (M - ts.length) none := by
  unfold storeTokens string_copy
  rw [List.drop_replicate]

lemma free_argv_str_somes (ts : List CStr) (m : Nat) :
    free_argv_str (ts.map some ++ List.replicate m none) =
      List.replicate (ts.length + m) none := by
  unfold free_argv_str
  rw [List.map_append, List.map_const', List.map_const', List.length_map,
    List.length_replicate, ← List.replicate_add]

lemma liveTokens_replicate (m : Nat) :
    liveTokens (List.replicate m (none : Option CStr)) = [] := by
  simp [liveTokens]

lemma liveTokens_somes (ts : List CStr) (m : Nat) :
    liveTokens (ts.map some ++ List.replicate m none) = ts := by
  simp [liveTokens, List.filterMap_map]

lemma parse_null_argv (cmd : Option CStr) (inst : Option Instruction) :
    parse cmd inst none = (inst, none) := by
  cases cmd <;> cases inst <;> rfl

lemma parse_null_other (cmd : Option CStr) (inst : Option Instruction) (a : Argv)
    (h : cmd = none ∨ inst = none) (ha : a.length = MAXARGS) :
    parse cmd inst (some a) = (inst, some (List.replicate MAXARGS none)) := by
  unfold parse
  rw [initialize_argv_n_full a ha]
  rcases h with h | h
  · subst h; cases inst <;> rfl
  · subst h; cases cmd <;> rfl

lemma parse_no_toks (c : CStr) (i : Instruction) (a : Argv)
    (ha : a.length = MAXARGS) (hc : c.length < MAXLINE)
    (ht : splitTokens c = []) :
    parse (some c) (some i) (some a) =
      (some { instruct := none, id := 0, file := none },
       some (List.replicate MAXARGS none)) := by
  have htake : c.take MAXLINE = c := List.take_of_length_le (le_of_lt hc)
  unfold parse
  rw [initialize_argv_n_full a ha]
  unfold parse_n
  simp only [htake, ht]

lemma parse_char (c : CStr) (i : Instruction) (a : Argv) (t0 : CStr)
    (tr : List CStr) (ha : a.length = MAXARGS) (hc : c.length < MAXLINE)
    (ht : splitTokens c = t0 :: tr) :
    parse (some c) (some i) (some a) =
      (some { instruct := some t0,
              id := (parse_id_token ((t0 :: tr).get? 1) (some t0) 0).1,
              file := (parse_file_token ((t0 :: tr).get? 2) (some t0) none).1 },
       if contains (some t0) instructs_list_full
       then some (List.replicate MAXARGS none)
       else some (((t0 :: tr).take (MAXARGS - 1)).map some ++
                  List.replicate
                    (MAXARGS - ((t0 :: tr).take (MAXARGS - 1)).length) none)) := by
  have htake : c.take MAXLINE = c := List.take_of_length_le (le_of_lt hc)
  have hlen : ((t0 :: tr).take (MAXARGS - 1)).length ≤ MAXARGS - 1 :=
    List.length_take_le _ _
  have h0 : argvGet (((t0 :: tr).take (MAXARGS - 1)).map some ++
      List.replicate (MAXARGS - ((t0 :: tr).take (MAXARGS - 1)).length) none) 0 =
      some t0 := by
    rw [argvGet_somes, List.get?_take (show 0 < MAXARGS - 1 by decide)]; rfl
  have h1 : argvGet (((t0 :: tr).take (MAXARGS - 1)).map some ++
      List.replicate (MAXARGS - ((t0 :: tr).take (MAXARGS - 1)).length) none) 1 =
      (t0 :: tr).get? 1 := by
    rw [argvGet_somes, List.get?_take (show 1 < MAXARGS - 1 by decide)]
  have h2 : argvGet (((t0 :: tr).take (MAXARGS - 1)).map some ++
      List.replicate (MAXARGS - ((t0 :: tr).take (MAXARGS - 1)).length) none) 2 =
      (t0 :: tr).get? 2 := by
    rw [argvGet_somes, List.get?_take (show 2 < MAXARGS - 1 by decide)]
  have hfa : free_argv_str (((t0 :: tr).take (MAXARGS - 1)).map some ++
      List.replicate (MAXARGS - ((t0 :: tr).take (MAXARGS - 1)).length) none) =
      List.replicate MAXARGS none := by
    rw [free_argv_str_somes]
    have : ((t0 :: tr).take (MAXARGS - 1)).length +
        (MAXARGS - ((t0 :: tr).take (MAXARGS - 1)).length) = MAXARGS := by
      have hM : (1 : Nat) ≤ MAXARGS := by decide
      omega
    rw [this]
  unfold parse
  rw [initialize_argv_n_full a ha]
  unfold parse_n
  simp only [htake, ht]
  rw [storeTokens_replicate]
  simp only [h0, h1, h2, hfa, Option.map_some', string_copy]
  cases hcon : contains (some t0) instructs_list_full <;> simp [hcon]

lemma afterSign_length_le (r : CStr) : (afterSign r).length ≤ r.length := by
  cases r with
  | nil => exact le_refl _
  | cons c cs =>
    simp only [afterSign]
    split
    · simp [Nat.le_succ]
    · exact le_refl _

lemma strtol10_success (t : CStr) :
    (¬((strtol10 t).2 = 0 ∨ (strtol10 t).2 < t.length)) ↔ intTokenOK t = true := by
  have hlen_t : (t.takeWhile isspaceC).length + (t.dropWhile isspaceC).length
      = t.length := by
    conv_rhs => rw [← List.takeWhile_append_dropWhile (p := isspaceC) (l := t)]
    rw [List.length_append]
  have hrr : (afterSign (t.dropWhile isspaceC)).length ≤
      (t.dropWhile isspaceC).length := afterSign_length_le _
  have hdsr : ((afterSign (t.dropWhile isspaceC)).takeWhile isDigitC).length ≤
      (afterSign (t.dropWhile isspaceC)).length :=
    (List.takeWhile_prefix _).length_le
  have hiff : intTokenOK t = true ↔
      afterSign (t.dropWhile isspaceC) ≠ [] ∧
        ∀ x ∈ afterSign (t.dropWhile isspaceC), isDigitC x := by
    simp [intTokenOK, List.isEmpty_iff, List.all_eq_true]
  by_cases hde : (afterSign (t.dropWhile isspaceC)).takeWhile isDigitC = []
  · have hs : strtol10 t = (0, 0) := by
      simp [strtol10, hde]
    rw [hs, hiff]
    constructor
    · intro h; exact absurd (Or.inl rfl) h
    · rintro ⟨hne, hall⟩
      exact absurd (hde ▸ List.takeWhile_eq_self_iff.mpr hall).symm hne
  · have h2 : (strtol10 t).2 = (t.takeWhile isspaceC).length +
        ((t.dropWhile isspaceC).length - (afterSign (t.dropWhile isspaceC)).length) +
        ((afterSign (t.dropWhile isspaceC)).takeWhile isDigitC).length := by
      simp [strtol10, hde]
    have hdspos : 0 < ((afterSign (t.dropWhile isspaceC)).takeWhile isDigitC).length :=
      List.length_pos.mpr hde
    rw [hiff, h2]
    constructor
    · intro h
      have h0 : ¬(((t.takeWhile isspaceC).length +
          ((t.dropWhile isspaceC).length - (afterSign (t.dropWhile isspaceC)).length) +
          ((afterSign (t.dropWhile isspaceC)).takeWhile isDigitC).length) < t.length) :=
        fun hlt => h (Or.inr hlt)
      have hle := Nat.le_of_not_lt h0
      have heq : ((afterSign (t.dropWhile isspaceC)).takeWhile isDigitC).length =
          (afterSign (t.dropWhile isspaceC)).length := by omega
      have hds_eq : (afterSign (t.dropWhile isspaceC)).takeWhile isDigitC =
          afterSign (t.dropWhile isspaceC) :=
        (List.takeWhile_prefix _).eq_of_length heq
      refine ⟨?_, List.takeWhile_eq_self_iff.mp hds_eq⟩
      intro hcon
      apply hde
      rw [hcon, List.takeWhile_nil]
    · rintro ⟨hne, hall⟩
      have hds_eq : (afterSign (t.dropWhile isspaceC)).takeWhile isDigitC =
          afterSign (t.dropWhile isspaceC) :=
        List.takeWhile_eq_self_iff.mpr hall
      have heq : ((afterSign (t.dropWhile isspaceC)).takeWhile isDigitC).length =
          (afterSign (t.dropWhile isspaceC)).length := by rw [hds_eq]
      rintro (h0 | hlt) <;> omega

lemma parse_id_token_eq (t ins : CStr) :
    parse_id_token (some t) (some ins) 0 =
      if contains (some ins) instructs_with_id && intTokenOK t then
        (toInt32 (strtol10 t).1, true)
      else (0, false) := by
  by_cases hcon : contains (some ins) instructs_with_id = true
  · by_cases hok : intTokenOK t = true
    · have hd := (strtol10_success t).mpr hok
      simp only [parse_id_token]
      rw [if_pos hcon, if_neg hd]
      simp [hcon, hok]
    · have hok' : intTokenOK t = false := by
        cases h : intTokenOK t
        · rfl
        · exact absurd h hok
      have hd : (strtol10 t).2 = 0 ∨ (strtol10 t).2 < t.length := by
        by_contra hcon2
        exact hok ((strtol10_success t).mp hcon2)
      simp only [parse_id_token]
      rw [if_pos hcon, if_pos hd]
      simp [hcon, hok']
  · have hcon' : contains (some ins) instructs_with_id = false := by
      cases h : contains (some ins) instructs_with_id
      · rfl
      · exact absurd h hcon
    simp [parse_id_token, hcon']

lemma splitAux_space (c : CStr) (h : ∀ x ∈ c, x = ' ') : splitAux c [] = [] := by
  induction c with
  | nil => rfl
  | cons d cs ih =>
    have hd : d = ' ' := h d (List.mem_cons_self d cs)
    subst hd
    simp only [splitAux, if_pos rfl, List.isEmpty_nil, if_true]
    exact ih fun x hx => h x (List.mem_cons_of_mem _ hx)

lemma splitTokens_space (c : CStr) (h : ∀ x ∈ c, x = ' ') : splitTokens c = [] :=
  splitAux_space c h

lemma sentinelOK_replicate (m : Nat) :
    sentinelOK (List.replicate m none) = true := by
  cases m with
  | zero => rfl
  | succ k =>
    simp [List.replicate, sentinelOK, List.all_eq_true, List.mem_replicate]

lemma sentinelOK_somes (ts : List CStr) (m : Nat) :
    sentinelOK (ts.map some ++ List.replicate m none) = true := by
  induction ts with
  | nil => simpa using sentinelOK_replicate m
  | cons t ts ih => simpa [sentinelOK] using ih

lemma argvInv_replicate : argvInv (List.replicate MAXARGS none) := by
  refine ⟨sentinelOK_replicate _, ?_, ?_⟩
  · rw [liveTokens_replicate]
    exact Nat.zero_le _
  · rw [liveTokens_replicate]
    exact getD_replicate_none _ _

lemma argvInv_stored (ts : List CStr) (hts : ts.length ≤ MAXARGS - 1) :
    argvInv (ts.map some ++ List.replicate (MAXARGS - ts.length) none) := by
  refine ⟨sentinelOK_somes ts _, ?_, ?_⟩
  · rw [liveTokens_somes]
    exact hts
  · rw [liveTokens_somes, argvGet_somes]
    exact List.get?_eq_none.mpr (le_refl _)

lemma takeWhile_ne_append (l : CStr) (m : Nat) (hl : ∀ x ∈ l, x ≠ '\x00') :
    (l ++ List.replicate (m + 1) '\x00').takeWhile (fun ch => ch ≠ '\x00') = l := by
  induction l with
  | nil => simp [List.replicate, List.takeWhile_cons]
  | cons d ds ih =>
    have hd : d ≠ '\x00' := hl d (List.mem_cons_self d ds)
    have ih' := ih fun x hx => hl x (List.mem_cons_of_mem _ hx)
    simp only [ne_eq, decide_not] at ih' ⊢
    simp [List.takeWhile_cons, hd, ih']

/-! Claim theorems. -/

/-- C8: releasing an Instruction is idempotent — `free_instruction` applied
twice equals `free_instruction` applied once, and applying it to an
already-cleared Instruction (instruct and file both absent) succeeds and
leaves it in the same cleared state. -/
theorem c8_free_instruction_idempotent (x : Option Instruction) (b : Int) :
    free_instruction (free_instruction x) = free_instruction x ∧
    free_instruction (some { instruct := none, id := b, file := none }) =
      some { instruct := none, id := b, file := none } := by
  refine ⟨?_, rfl⟩
  cases x <;> rfl

/-- C10: for the id-bearing instruction `run` and the token `2147483648`
(a syntactically complete base-10 integer just beyond the 32-bit `int`
range), `parse` takes the success path of `parse_id_token` and stores the
value wrapped modulo `2 ^ 32`, namely `-2147483648`, not the token's true
value and not the absent default 0. -/
theorem c10_id_overflow_wrap :
    (parse (some ("run 2147483648".toList))
        (some { instruct := none, id := 0, file := none })
        (some (List.replicate MAXARGS none))).1 =
      some { instruct := some ("run".toList), id := -2147483648, file := none } ∧
    (-2147483648 : Int) = 2147483648 - 2 ^ 32 ∧
    ((-2147483648 : Int) ≠ 0 ∧ (-2147483648 : Int) ≠ 2147483648) ∧
    (parse_id_token (some ("2147483648".toList)) (some ("run".toList)) 0).2 = true ∧
    ((2 : Int) ^ 31 ≤ 2147483648 ∧ (2147483648 : Int) ≤ LONG_MAX) := by
  decide

/-- C3: counterexample to the claim that a null line leaves every argv slot
unchanged — with a non-null argv holding a live token and a null line,
`parse` resets the argv slots (via `initialize_argv_n`) even though the
Instruction is untouched. -/
theorem c3_counterexample :
    (parse none (some { instruct := some ("y".toList), id := 7, file := none })
        (some (some ("x".toList) :: List.replicate 79 none))).2 ≠
      some (some ("x".toList) :: List.replicate 79 none) ∧
    (parse none (some { instruct := some ("y".toList), id := 7, file := none })
        (some (some ("x".toList) :: List.replicate 79 none))).1 =
      some { instruct := some ("y".toList), id := 7, file := none } := by
  decide

/-- C3 (amended): when the argv destination is null, `parse` performs no
mutation at all and returns; when argv is non-null but the line or the
Instruction destination is null, the Instruction is not mutated, but every
argv slot is reset to empty, because `parse` reinitializes argv before the
null checks of `parse_n`. -/
theorem c3_null_inputs_amended (cmd : Option CStr) (inst : Option Instruction)
    (a : Argv) (h : cmd = none ∨ inst = none) (ha : a.length = MAXARGS) :
    parse cmd inst none = (inst, none) ∧
    parse cmd inst (some a) = (inst, some (List.replicate MAXARGS none)) :=
  ⟨parse_null_argv cmd inst, parse_null_other cmd inst a h ha⟩

theorem c3_null_inputs_amended_witness :
    parse none (some { instruct := none, id := 0, file := none }) none =
      (some { instruct := none, id := 0, file := none }, none) ∧
    parse none (some { instruct := none, id := 0, file := none })
        (some (List.replicate MAXARGS none)) =
      (some { instruct := none, id := 0, file := none },
       some (List.replicate MAXARGS none)) :=
  c3_null_inputs_amended none (some { instruct := none, id := 0, file := none })
    (List.replicate MAXARGS none) (Or.inl rfl) (by decide)

/-- C4: counterexample to the claim that every all-whitespace line yields an
absent name and zero tokens — the tokenizer splits only on the space
character, so the all-whitespace line consisting of a single tab produces
one token, a non-null Instruction name, and a live argv slot. -/
theorem c4_counterexample :
    is_whitespace (some ['\t']) = true ∧
    parse (some ['\t']) (some { instruct := none, id := 0, file := none })
        (some (List.replicate MAXARGS none)) =
      (some { instruct := some ['\t'], id := 0, file := none },
       some (some ['\t'] :: List.replicate 79 none)) := by
  decide

/-- C4 (amended): for every input line that is empty or consists entirely of
space characters (the only delimiter the tokenizer splits on), `parse`
leaves the Instruction name absent, the id at 0, the file absent, and
stores zero tokens in the token buffer; this is a normal return, not an
error. -/
theorem c4_blank_line_amended (c : CStr) (i : Instruction) (a : Argv)
    (ha : a.length = MAXARGS) (hc : c.length < MAXLINE)
    (hsp : ∀ x ∈ c, x = ' ') :
    parse (some c) (some i) (some a) =
      (some { instruct := none, id := 0, file := none },
       some (List.replicate MAXARGS none)) :=
  parse_no_toks c i a ha hc (splitTokens_space c hsp)

theorem c4_blank_line_amended_witness :
    parse (some ("   ".toList)) (some { instruct := none, id := 0, file := none })
        (some (List.replicate MAXARGS none)) =
      (some { instruct := none, id := 0, file := none },
       some (List.replicate MAXARGS none)) :=
  c4_blank_line_amended ("   ".toList) { instruct := none, id := 0, file := none }
    (List.replicate MAXARGS none) (by decide) (by decide) (by decide)

/-- C7: the claim that lines longer than `MAXLINE` are parsed as if
truncated fails on the code — `strncpy` into the `MAXLINE`-byte scratch
buffer leaves a NUL terminator exactly when the line is shorter than
`MAXLINE`, so for a longer line the scratch region is not a terminated C
string at all and `strtok` reads past the buffer; for shorter lines the
buffer holds the whole line, so no truncated-parsing region exists. -/
theorem c7_scratch_termination (c : CStr) (h : '\x00' ∉ c) :
    (hasTerm (strncpyC c MAXLINE) ↔ c.length < MAXLINE) ∧
    (c.length < MAXLINE →
      (strncpyC c MAXLINE).takeWhile (fun ch => ch ≠ '\x00') = c) := by
  constructor
  · constructor
    · intro hin
      rcases List.mem_append.mp hin with hin | hin
      · exact absurd (List.take_subset _ _ hin) h
      · have := (List.mem_replicate.mp hin).1
        omega
    · intro hlt
      apply List.mem_append.mpr
      right
      exact List.mem_replicate.mpr ⟨by omega, rfl⟩
  · intro hlt
    unfold strncpyC
    rw [List.take_of_length_le (le_of_lt hlt)]
    obtain ⟨k, hk⟩ : ∃ k, MAXLINE - c.length = k + 1 :=
      ⟨MAXLINE - c.length - 1, by omega⟩
    rw [hk]
    exact takeWhile_ne_append c k fun x hx hx0 => h (hx0 ▸ hx)

theorem c7_scratch_termination_witness :
    ¬ hasTerm (strncpyC (List.replicate (MAXLINE + 1) 'a') MAXLINE) := by
  intro hmem
  have h2 := (c7_scratch_termination (List.replicate (MAXLINE + 1) 'a')
      (by simp [List.mem_replicate])).1.mp hmem
  rw [List.length_replicate] at h2
  omega

/-- C1: counterexample to the claimed numeric syntax — on the line
`"delete \t42"` the second token is `"\t42"`, which does not consist of an
optional sign followed by digits (it has a leading tab), yet `parse`
populates the id with 42, because `strtol` skips leading whitespace. -/
theorem c1_counterexample :
    (parse (some ("delete \t42".toList))
        (some { instruct := none, id := 0, file := none })
        (some (List.replicate MAXARGS none))).1 =
      some { instruct := some ("delete".toList), id := 42, file := none } ∧
    claimIntSyntax ("\t42".toList) = false ∧
    splitTokens ("delete \t42".toList) = [("delete".toList), ("\t42".toList)] ∧
    (parse_id_token (some ("\t42".toList)) (some ("delete".toList)) 0).2 = true := by
  decide

/-- C1 (amended): for every parse call whose line produces at least one
token, the resulting id equals the successfully extracted value exactly
when the first token is a member of `instructs_with_id` and the second
token exists and satisfies `intTokenOK` (optional leading whitespace as
skipped by `strtol`, then an optional sign, then one or more decimal
digits using the entire remaining content); in every other case, including
a token whose numeric prefix is followed by other characters, the id is
the default 0. -/
theorem c1_id_extraction_amended (c : CStr) (i : Instruction) (a : Argv)
    (t0 : CStr) (tr : List CStr) (ha : a.length = MAXARGS)
    (hc : c.length < MAXLINE) (ht : splitTokens c = t0 :: tr) :
    ∃ i', (parse (some c) (some i) (some a)).1 = some i' ∧
      i'.instruct = some t0 ∧
      i'.id = (match (t0 :: tr).get? 1 with
               | none => 0
               | some t1 =>
                 if contains (some t0) instructs_with_id && intTokenOK t1 then
                   toInt32 (strtol10 t1).1
                 else 0) := by
  rw [parse_char c i a t0 tr ha hc ht]
  refine ⟨_, rfl, rfl, ?_⟩
  cases hget : (t0 :: tr).get? 1 with
  | none => rfl
  | some t1 =>
    rw [parse_id_token_eq t1 t0]
    by_cases hok : (contains (some t0) instructs_with_id && intTokenOK t1) = true
    · simp [hok]
    · simp [hok]

theorem c1_id_extraction_amended_witness :
    ∃ i', (parse (some ("delete 42".toList))
        (some { instruct := none, id := 0, file := none })
        (some (List.replicate MAXARGS none))).1 = some i' ∧
      i'.instruct = some ("delete".toList) ∧
      i'.id = (match [("delete".toList), ("42".toList)].get? 1 with
               | none => 0
               | some t1 =>
                 if contains (some ("delete".toList)) instructs_with_id &&
                     intTokenOK t1 then
                   toInt32 (strtol10 t1).1
                 else 0) :=
  c1_id_extraction_amended ("delete 42".toList)
    { instruct := none, id := 0, file := none } (List.replicate MAXARGS none)
    ("delete".toList) [("42".toList)] (by decide) (by decide) (by decide)

/-- C2: for every parse call whose line produces at least one token, if the
first token is an exact member of `instructs_list_full` the token buffer is
emptied (every slot reset) before `parse` returns, and if it is not a
member, every token stored during tokenization is still present in order in
argv while the Instruction name is a copy of the first token. -/
theorem c2_argv_release_retain (c : CStr) (i : Instruction) (a : Argv)
    (t0 : CStr) (tr : List CStr) (ha : a.length = MAXARGS)
    (hc : c.length < MAXLINE) (ht : splitTokens c = t0 :: tr) :
    (contains (some t0) instructs_list_full = true →
      (parse (some c) (some i) (some a)).2 = some (List.replicate MAXARGS none)) ∧
    (contains (some t0) instructs_list_full = false →
      (parse (some c) (some i) (some a)).2 =
        some (((t0 :: tr).take (MAXARGS - 1)).map some ++
              List.replicate (MAXARGS - ((t0 :: tr).take (MAXARGS - 1)).length)
                none) ∧
      ∃ i', (parse (some c) (some i) (some a)).1 = some i' ∧
        i'.instruct = some t0) := by
  rw [parse_char c i a t0 tr ha hc ht]
  constructor
  · intro h
    simp [h]
  · intro h
    exact ⟨by simp [h], _, rfl, rfl⟩

theorem c2_argv_release_retain_witness :
    (parse (some ("/bin/ls -la".toList))
        (some { instruct := none, id := 0, file := none })
        (some (List.replicate MAXARGS none))).2 =
      some (some ("/bin/ls".toList) :: some ("-la".toList) ::
            List.replicate 78 none) ∧
    (parse (some ("quit now".toList))
        (some { instruct := none, id := 0, file := none })
        (some (List.replicate MAXARGS none))).2 =
      some (List.replicate MAXARGS none) := by
  constructor
  · have h := (c2_argv_release_retain ("/bin/ls -la".toList)
        { instruct := none, id := 0, file := none }
        (List.replicate MAXARGS none) ("/bin/ls".toList) [("-la".toList)]
        (by decide) (by decide) (by decide)).2 (by decide)
    rw [h.1]
    decide
  · exact (c2_argv_release_retain ("quit now".toList)
      { instruct := none, id := 0, file := none }
      (List.replicate MAXARGS none) ("quit".toList) [("now".toList)]
      (by decide) (by decide) (by decide)).1 (by decide)

/-- C5: for every parse call whose line produces at least one token, the
file field is populated exactly when the first token is a member of
`instructs_with_file` and a third token exists, and in that case the file
value is the third token verbatim; an instruction outside
`instructs_with_file` never has the file populated, third token or not. -/
theorem c5_file_extraction (c : CStr) (i : Instruction) (a : Argv)
    (t0 : CStr) (tr : List CStr) (ha : a.length = MAXARGS)
    (hc : c.length < MAXLINE) (ht : splitTokens c = t0 :: tr) :
    ∃ i', (parse (some c) (some i) (some a)).1 = some i' ∧
      i'.file = (if contains (some t0) instructs_with_file then
                   (t0 :: tr).get? 2
                 else none) := by
  rw [parse_char c i a t0 tr ha hc ht]
  refine ⟨_, rfl, ?_⟩
  cases hget : (t0 :: tr).get? 2 with
  | none =>
    cases hcon : contains (some t0) instructs_with_file <;>
      simp [parse_file_token, hcon]
  | some t2 =>
    cases hcon : contains (some t0) instructs_with_file <;>
      simp [parse_file_token, hcon, string_copy]

theorem c5_file_extraction_witness :
    ∃ i', (parse (some ("run 1 notes.txt".toList))
        (some { instruct := none, id := 0, file := none })
        (some (List.replicate MAXARGS none))).1 = some i' ∧
      i'.file = (if contains (some ("run".toList)) instructs_with_file then
                   [("run".toList), ("1".toList), ("notes.txt".toList)].get? 2
                 else none) :=
  c5_file_extraction ("run 1 notes.txt".toList)
    { instruct := none, id := 0, file := none } (List.replicate MAXARGS none)
    ("run".toList) [("1".toList), ("notes.txt".toList)]
    (by decide) (by decide) (by decide)

/-- C6: for every input line, `parse` stores at most `MAXARGS - 1` tokens
in the token buffer; the live tokens after `parse` are (when retained) the
first `MAXARGS - 1` input tokens in input order, any further tokens being
silently dropped, and `parse` always returns normally. -/
theorem c6_token_capacity (c : CStr) (i : Instruction) (a : Argv)
    (ha : a.length = MAXARGS) (hc : c.length < MAXLINE) :
    ∃ b, (parse (some c) (some i) (some a)).2 = some b ∧
      (liveTokens b).length ≤ MAXARGS - 1 ∧
      (liveTokens b = (splitTokens c).take (MAXARGS - 1) ∨ liveTokens b = []) := by
  cases ht : splitTokens c with
  | nil =>
    rw [parse_no_toks c i a ha hc ht]
    exact ⟨_, rfl, by rw [liveTokens_replicate]; exact Nat.zero_le _,
      Or.inr (liveTokens_replicate _)⟩
  | cons t0 tr =>
    rw [parse_char c i a t0 tr ha hc ht]
    by_cases hcon : contains (some t0) instructs_list_full = true
    · refine ⟨List.replicate MAXARGS none, by simp [hcon], ?_,
        Or.inr (liveTokens_replicate _)⟩
      rw [liveTokens_replicate]
      exact Nat.zero_le _
    · have hcon' : contains (some t0) instructs_list_full = false := by
        cases h : contains (some t0) instructs_list_full
        · rfl
        · exact absurd h hcon
      refine ⟨((t0 :: tr).take (MAXARGS - 1)).map some ++
          List.replicate (MAXARGS - ((t0 :: tr).take (MAXARGS - 1)).length) none,
          by simp [hcon'], ?_, Or.inl ?_⟩
      · rw [liveTokens_somes]
        exact List.length_take_le _ _
      · rw [liveTokens_somes]

theorem c6_token_capacity_witness :
    ∃ b, (parse (some ("run 1 f.txt extra".toList))
        (some { instruct := none, id := 0, file := none })
        (some (List.replicate MAXARGS none))).2 = some b ∧
      (liveTokens b).length ≤ MAXARGS - 1 ∧
      (liveTokens b =
        (splitTokens ("run 1 f.txt extra".toList)).take (MAXARGS - 1) ∨
       liveTokens b = []) :=
  c6_token_capacity ("run 1 f.txt extra".toList)
    { instruct := none, id := 0, file := none } (List.replicate MAXARGS none)
    (by decide) (by decide)

/-- C9: after `initialize_argv` and after every `parse` call on a non-null
argv of capacity `MAXARGS`, the token buffer is null-terminated within its
capacity — no live token follows a sentinel slot, at most `MAXARGS - 1`
live tokens are stored, and the slot immediately following the last live
token is the null sentinel. -/
theorem c9_argv_null_terminated (cmd : Option CStr) (inst : Option Instruction)
    (a : Argv) (ha : a.length = MAXARGS)
    (hcmd : ∀ c, cmd = some c → c.length < MAXLINE) :
    (∃ b, (initialize_argv (some a)).1 = some b ∧ argvInv b) ∧
    (∃ b, (parse cmd inst (some a)).2 = some b ∧ argvInv b) := by
  constructor
  · exact ⟨_, initialize_argv_n_full a ha, argvInv_replicate⟩
  · cases cmd with
    | none =>
      rw [(parse_null_other none inst a (Or.inl rfl) ha)]
      exact ⟨_, rfl, argvInv_replicate⟩
    | some c =>
      cases inst with
      | none =>
        rw [(parse_null_other (some c) none a (Or.inr rfl) ha)]
        exact ⟨_, rfl, argvInv_replicate⟩
      | some i =>
        have hc : c.length < MAXLINE := hcmd c rfl
        cases ht : splitTokens c with
        | nil =>
          rw [parse_no_toks c i a ha hc ht]
          exact ⟨_, rfl, argvInv_replicate⟩
        | cons t0 tr =>
          rw [parse_char c i a t0 tr ha hc ht]
          by_cases hcon : contains (some t0) instructs_list_full = true
          · exact ⟨List.replicate MAXARGS none, by simp [hcon], argvInv_replicate⟩
          · have hcon' : contains (some t0) instructs_list_full = false := by
              cases h : contains (some t0) instructs_list_full
              · rfl
              · exact absurd h hcon
            exact ⟨((t0 :: tr).take (MAXARGS - 1)).map some ++
                List.replicate
                  (MAXARGS - ((t0 :: tr).take (MAXARGS - 1)).length) none,
              by simp [hcon'],
              argvInv_stored _ (List.length_take_le _ _)⟩

theorem c9_argv_null_terminated_witness :
    (∃ b, (initialize_argv (some (List.replicate MAXARGS
        (some ("old".toList))))).1 = some b ∧ argvInv b) ∧
    (∃ b, (parse (some ("run 1 f.txt".toList))
        (some { instruct := none, id := 0, file := none })
        (some (List.replicate MAXARGS (some ("old".toList))))).2 = some b ∧
      argvInv b) :=
  c9_argv_null_terminated (some ("run 1 f.txt".toList))
    (some { instruct := none, id := 0, file := none })
    (List.replicate MAXARGS (some ("old".toList)))
    (by decide) (fun c hc => by cases hc; decide)

end ParseC
